import Mathlib

/-!
# Verification of `converter.py` (svdgoor/Tools)

Shallow embedding of `src/converter.py`.  Conventions:

* A file path is represented by the list of its dot-separated components
  (`Path := List String`).  Python's `image.split(".")` is the component
  list itself; `".".join(image.split(".")[:-1])` is `Path.dropLast`;
  `image.split(".")[-1]` is `Path.getLastD ""`; and, for a dot-free
  non-empty extension `ext`, `image.endswith("." + ext)` holds exactly
  when the component list has length at least 2 and its last component
  is `ext` (e.g. the string "a.xpng" is `["a","xpng"]` and does not end
  with ".png"; the string "png" is `["png"]` and does not end with
  ".png" although its last component is "png").
* The filesystem is a structure `FS` of existing regular files and
  existing directories (both as path lists).  `os.path.isfile` is
  membership in `files`; `os.path.exists` is membership in `files` or
  `dirs`.  File contents are not modelled: `conv.save` adds the target
  path to `files`.
* The external PIL codec is an opaque `Codec` of three deterministic
  oracles: `openOk` (does `Image.open` succeed on this path),
  `convertOk` (does `im.convert("RGB")` succeed), `saveOk` (does
  `conv.save` to this target path succeed).  A `false` oracle answer is
  the codec raising an exception at that call.
* The global dicts `file_counts` / `created_counts` and the `progress`
  dict are fields of a `State` record threaded explicitly.
* Thread-pool execution is modelled by one admissible sequential
  schedule: all classification/submission first (the submission loop of
  `convert_all`), then each submitted job's `convert` followed
  immediately by the coordinator's handling of its completed future, in
  submission order.  Counter updates commute, so final counter values
  do not depend on the completion order.
-/

namespace ImgConv

/-- A path, as its dot-separated components (see the header comment). -/
abbrev Path := List String

/-- `EXTS = ["png", "jpg", "webp"]` (converter.py line 12). -/
def EXTS : List String := ["png", "jpg", "webp"]

/-- The `file_counts` dict (line 14): one count per supported format plus
"other", "did-not-exist" and "error". -/
structure FoundCounts where
  png : Nat
  jpg : Nat
  webp : Nat
  other : Nat
  didNotExist : Nat
  error : Nat
deriving DecidableEq, Repr

/-- `file_counts` at program start: every category 0 (line 14). -/
def FoundCounts.zero : FoundCounts := ⟨0, 0, 0, 0, 0, 0⟩

/-- `file_counts[k] += 1`, keyed by the same strings the source uses. -/
def FoundCounts.inc (f : FoundCounts) (k : String) : FoundCounts :=
  if k = "png" then { f with png := f.png + 1 }
  else if k = "jpg" then { f with jpg := f.jpg + 1 }
  else if k = "webp" then { f with webp := f.webp + 1 }
  else if k = "other" then { f with other := f.other + 1 }
  else if k = "did-not-exist" then { f with didNotExist := f.didNotExist + 1 }
  else if k = "error" then { f with error := f.error + 1 }
  else f

/-- Read `file_counts[k]`. -/
def FoundCounts.get (f : FoundCounts) (k : String) : Nat :=
  if k = "png" then f.png
  else if k = "jpg" then f.jpg
  else if k = "webp" then f.webp
  else if k = "other" then f.other
  else if k = "did-not-exist" then f.didNotExist
  else if k = "error" then f.error
  else 0

/-- Sum of all `file_counts` categories. -/
def FoundCounts.total (f : FoundCounts) : Nat :=
  f.png + f.jpg + f.webp + f.other + f.didNotExist + f.error

/-- The `created_counts` dict (line 15): one count per supported format. -/
structure CreatedCounts where
  png : Nat
  jpg : Nat
  webp : Nat
deriving DecidableEq, Repr

/-- `created_counts` at program start (line 15). -/
def CreatedCounts.zero : CreatedCounts := ⟨0, 0, 0⟩

/-- `created_counts[k] += 1` (line 39). -/
def CreatedCounts.inc (f : CreatedCounts) (k : String) : CreatedCounts :=
  if k = "png" then { f with png := f.png + 1 }
  else if k = "jpg" then { f with jpg := f.jpg + 1 }
  else if k = "webp" then { f with webp := f.webp + 1 }
  else f

/-- The filesystem: existing regular files and existing directories. -/
structure FS where
  files : List Path
  dirs : List Path
deriving DecidableEq, Repr

/-- `os.path.exists` (line 33): a file or a directory is at the path. -/
def FS.pathExists (fs : FS) (p : Path) : Prop :=
  p ∈ fs.files ∨ p ∈ fs.dirs

instance (fs : FS) (p : Path) : Decidable (fs.pathExists p) := by
  unfold FS.pathExists; infer_instance

/-- The mutable program state: filesystem plus the global dicts
`file_counts`, `created_counts` and `progress` (lines 14-20). -/
structure State where
  fs : FS
  found : FoundCounts
  created : CreatedCounts
  totalFiles : Nat
  processedFiles : Nat
deriving DecidableEq, Repr

/-- State at interpreter start-up: given filesystem, all counters 0. -/
def initState (fs : FS) : State :=
  { fs := fs, found := .zero, created := .zero, totalFiles := 0, processedFiles := 0 }

/-- The external PIL codec as three deterministic success oracles. -/
structure Codec where
  openOk : Path → Bool
  convertOk : Path → Bool
  saveOk : Path → Bool

/-- `image.endswith("." + ext)` in the component representation:
at least two components and the last one is `ext`. -/
def endsWithDotExt (p : Path) (ext : String) : Bool :=
  decide (2 ≤ p.length) && (p.getLastD "" == ext)

/-- The `for ext in EXTS: if image.endswith(f".{ext}"): ... break` scan
(lines 29-30): the first extension in `EXTS` that is a suffix of the
image path, if any. -/
def findExt (p : Path) : Option String :=
  EXTS.find? (endsWithDotExt p)

/-- The inner loop of `convert` (lines 31-39): for each `other_ext` in
`EXTS`, if it differs from `ext` and no file or directory exists at the
sibling path, save the converted raster there and bump
`created_counts`; a failing save raises, aborting the rest of the loop.
Returns the new state and whether an exception was raised. -/
def saveSiblings (c : Codec) (b : Path) (ext : String) :
    List String → State → State × Bool
  | [], s => (s, false)
  | other :: rest, s =>
    if ext ≠ other ∧ ¬ s.fs.pathExists (b ++ [other]) then
      if c.saveOk (b ++ [other]) then
        saveSiblings c b ext rest
          { s with
            fs := { s.fs with files := (b ++ [other]) :: s.fs.files },
            created := s.created.inc other }
      else (s, true)
    else saveSiblings c b ext rest s

/-- The `try` body of `convert` (lines 24-40): open the image (may
raise), convert to RGB (may raise), then create the missing siblings
for the first matching extension.  Returns the new state and whether an
exception was raised anywhere in the body. -/
def convertEx (c : Codec) (image : Path) (s : State) : State × Bool :=
  if c.openOk image then
    if c.convertOk image then
      match findExt image with
      | some ext => saveSiblings c image.dropLast ext EXTS s
      | none => (s, false)
    else (s, true)
  else (s, true)

/-- `convert` (lines 23-43): run the try body; on an exception, log and
do `file_counts["error"] += 1`. -/
def convert (c : Codec) (image : Path) (s : State) : State :=
  let r := convertEx c image s
  if r.2 then { r.1 with found := r.1.found.inc "error" } else r.1

/-- One iteration of the submission loop of `convert_all`
(lines 84-92): a non-file is tallied "did-not-exist" and removed from
the total; a file with unsupported last component is tallied "other"
and removed from the total; otherwise the file is submitted as a job. -/
def classifyStep (acc : State × List Path) (f : Path) : State × List Path :=
  let s := acc.1
  let jobs := acc.2
  if f ∉ s.fs.files then
    ({ s with found := s.found.inc "did-not-exist", totalFiles := s.totalFiles - 1 }, jobs)
  else if f.getLastD "" ∉ EXTS then
    ({ s with found := s.found.inc "other", totalFiles := s.totalFiles - 1 }, jobs)
  else (s, jobs ++ [f])

/-- The whole submission loop of `convert_all` (lines 84-92). -/
def classifyAll (entries : List Path) (s : State) : State × List Path :=
  entries.foldl classifyStep (s, [])

/-- One iteration of the `as_completed` drain loop of `convert_all`
(lines 94-104) together with the job's own `convert` call: run the
conversion, then — since `convert` catches every exception itself,
`future.result()` returns normally — tally the file under its last
component (always in `EXTS` for a submitted job) or "other", and bump
`processed_files`. -/
def drainStep (c : Codec) (s : State) (f : Path) : State :=
  let s1 := convert c f s
  let s2 :=
    if f.getLastD "" ∈ EXTS then { s1 with found := s1.found.inc (f.getLastD "") }
    else { s1 with found := s1.found.inc "other" }
  { s2 with processedFiles := s2.processedFiles + 1 }

/-- `convert_all` (lines 66-110) on an already-discovered entry list:
set `progress["total_files"]` to the number of entries, classify and
submit every entry, then drain the completed jobs. -/
def convert_all (c : Codec) (entries : List Path) (s : State) : State :=
  (classifyAll entries { s with totalFiles := entries.length }).2.foldl (drainStep c)
    (classifyAll entries { s with totalFiles := entries.length }).1

/-- `convert_single` (lines 113-118): just `convert` plus logging. -/
def convert_single (c : Codec) (image : Path) (s : State) : State :=
  convert c image s

/-- Outcome of the `__main__` entry point in single-file mode. -/
structure MainResult where
  state : State
  invalidLogged : Bool
deriving DecidableEq, Repr

/-- `__main__` with neither `--directory` nor `--recursive`
(lines 149-154): if the path is not a regular file, log
"Invalid path provided" and do nothing else; otherwise run
`convert_single`. -/
def mainSingle (c : Codec) (fs : FS) (p : Path) : MainResult :=
  if p ∈ fs.files then { state := convert_single c p (initState fs), invalidLogged := false }
  else { state := initState fs, invalidLogged := true }

/-- `percent_complete` of one monitor sample (lines 52-53), over ℚ. -/
def percentComplete (processed total : Nat) : ℚ :=
  ((processed : ℚ) * 100) / (total : ℚ)

/-- `eta` of one monitor sample (lines 54-55), over ℚ. -/
def etaCalc (elapsed pc : ℚ) : ℚ :=
  if pc > 0 then elapsed / pc * (100 - pc) else 0

/-- One pass of the `report_progress` loop (lines 49-63): the loop body
runs only while `processed_files < total_files`, so with
`total_files = 0` no sample — and hence no division — happens.  A
produced sample is the pair (percent, eta). -/
def reportSample (processed total : Nat) (elapsed : ℚ) : Option (ℚ × ℚ) :=
  if processed < total then
    some (percentComplete processed total, etaCalc elapsed (percentComplete processed total))
  else none

/-- Coordinator-context events of `convert_all`, in program order. -/
inductive Event where
  | setTotal (n : Nat)
  | monitorStart
  | decTotal
  | submitJob (p : Path)
  | drainResult (p : Path)
deriving DecidableEq, Repr

/-- The classification events of the submission loop, in program order:
one `decTotal` per excluded entry, one `submitJob` per job.  The
submission loop never changes the filesystem, so the classification of
each entry only depends on the initial filesystem. -/
def classifyEvents (s : State) : List Path → List Event
  | [] => []
  | f :: rest =>
    if f ∈ s.fs.files then
      if f.getLastD "" ∈ EXTS then Event.submitJob f :: classifyEvents s rest
      else Event.decTotal :: classifyEvents s rest
    else Event.decTotal :: classifyEvents s rest

/-- The coordinator-context event trace of `convert_all` (lines 66-110)
in program order: `progress["total_files"] = len(files)` (line 76), then
`progress_thread.start()` (line 80), then the submission loop with its
`total_files` decrements (lines 84-92), then the drain (lines 94-104). -/
def convertAllTrace (entries : List Path) (s : State) : List Event :=
  let s0 := { s with totalFiles := entries.length }
  Event.setTotal entries.length :: Event.monitorStart ::
    (classifyEvents s0 entries ++ (classifyAll entries s0).2.map Event.drainResult)

/-- Claim C3 as stated: every `total_files` decrement (exclusion applied
during classification) occurs strictly before the monitor thread is
started. -/
def FinalizedBeforeMonitorStart (tr : List Event) : Prop :=
  ∀ i j, tr.get? i = some Event.decTotal → tr.get? j = some Event.monitorStart → i < j

/-- A codec whose open/convert/save calls all succeed. -/
def allOkCodec : Codec :=
  { openOk := fun _ => true, convertOk := fun _ => true, saveOk := fun _ => true }

/-- A codec whose `Image.open` always raises (convert/save unreached). -/
def openFailCodec : Codec :=
  { openOk := fun _ => false, convertOk := fun _ => true, saveOk := fun _ => true }

/-! ## Basic lemmas about the per-job conversion -/

theorem saveSiblings_found (c : Codec) (b : Path) (ext : String) :
    ∀ (l : List String) (s : State), ((saveSiblings c b ext l s).1).found = s.found := by
  intro l
  induction l with
  | nil => intro s; rfl
  | cons other rest ih =>
    intro s
    simp only [saveSiblings]
    split
    · split
      · simp [ih]
      · rfl
    · simp [ih]

theorem saveSiblings_dirs (c : Codec) (b : Path) (ext : String) :
    ∀ (l : List String) (s : State), ((saveSiblings c b ext l s).1).fs.dirs = s.fs.dirs := by
  intro l
  induction l with
  | nil => intro s; rfl
  | cons other rest ih =>
    intro s
    simp only [saveSiblings]
    split
    · split
      · simp [ih]
      · rfl
    · simp [ih]

theorem convertEx_found (c : Codec) (f : Path) (s : State) :
    ((convertEx c f s).1).found = s.found := by
  unfold convertEx
  split
  · split
    · split
      · exact saveSiblings_found ..
      · rfl
    · rfl
  · rfl

theorem convert_found (c : Codec) (f : Path) (s : State) :
    (convert c f s).found =
      if (convertEx c f s).2 then s.found.inc "error" else s.found := by
  unfold convert
  by_cases h : (convertEx c f s).2 <;> simp [h, convertEx_found]

theorem convert_fs (c : Codec) (f : Path) (s : State) :
    (convert c f s).fs = ((convertEx c f s).1).fs := by
  unfold convert
  by_cases h : (convertEx c f s).2 <;> simp [h]

theorem convert_created (c : Codec) (f : Path) (s : State) :
    (convert c f s).created = ((convertEx c f s).1).created := by
  unfold convert
  by_cases h : (convertEx c f s).2 <;> simp [h]

/-! ## Claim theorems, first group -/

/-- **C5.** The scenario run: a directory holding exactly the file
`a.png` (path `["a","png"]`), all codec calls succeeding.  The final
state has FoundCounters png = 1 and every other category 0,
CreatedCounters jpg = 1 and webp = 1 (png = 0), the filesystem gains
exactly the two files `a.jpg` and `a.webp`, and the source `a.png` is
still present (the model never writes to an existing path, and the
exists-check skips occupied sibling paths, so the source is never
overwritten). -/
theorem c5_scenario :
    convert_all allOkCodec [["a", "png"]] (initState ⟨[["a", "png"]], []⟩) =
      { fs := { files := [["a", "webp"], ["a", "jpg"], ["a", "png"]], dirs := [] },
        found := { png := 1, jpg := 0, webp := 0, other := 0, didNotExist := 0, error := 0 },
        created := { png := 0, jpg := 1, webp := 1 },
        totalFiles := 1,
        processedFiles := 1 } := by
  decide

/-- **C6.** Monitor sampling: whenever a sample happens (the loop body
runs only while `processed < total`, which forces `total > 0`), the
percent is `100 * processed / total` and the eta is
`elapsed / percent * (100 - percent)` for positive percent and `0`
otherwise; with `total = 0` no sample (and hence no division) is
performed; and the instance `total = 10, processed = 5, elapsed = 10`
yields percent `50` and eta `10`. -/
theorem c6_progress_formulas :
    (∀ (processed total : Nat) (elapsed : ℚ), processed < total →
        reportSample processed total elapsed =
          some (100 * (processed : ℚ) / (total : ℚ),
            if (100 * (processed : ℚ) / (total : ℚ)) > 0 then
              elapsed / (100 * (processed : ℚ) / (total : ℚ)) *
                (100 - 100 * (processed : ℚ) / (total : ℚ))
            else 0)) ∧
    (∀ (processed : Nat) (elapsed : ℚ), reportSample processed 0 elapsed = none) ∧
    reportSample 5 10 10 = some (50, 10) := by
  refine ⟨?_, ?_, ?_⟩
  · intro p t e h
    have hpc : percentComplete p t = 100 * (p : ℚ) / (t : ℚ) := by
      unfold percentComplete; ring
    rw [reportSample, if_pos h, hpc]
    rfl
  · intro p e
    rw [reportSample, if_neg (Nat.not_lt_zero p)]
  · have h50 : percentComplete 5 10 = 50 := by
      norm_num [percentComplete]
    rw [reportSample, if_pos (by norm_num), h50]
    norm_num [etaCalc]

/-- Witness for C6: the hypotheses of the first conjunct hold at
`processed = 5, total = 10, elapsed = 10`, and percent/eta there match
the spec formulas, i.e. evaluate to `50` and `10`. -/
theorem c6_progress_formulas_witness :
    reportSample 5 10 10 =
      some (100 * ((5 : Nat) : ℚ) / ((10 : Nat) : ℚ),
        if (100 * ((5 : Nat) : ℚ) / ((10 : Nat) : ℚ)) > 0 then
          (10 : ℚ) / (100 * ((5 : Nat) : ℚ) / ((10 : Nat) : ℚ)) *
            (100 - 100 * ((5 : Nat) : ℚ) / ((10 : Nat) : ℚ))
        else 0) :=
  c6_progress_formulas.1 5 10 10 (by norm_num)

/-- **C7.** Single-file mode on a path that is not an existing regular
file: the error is logged, nothing is converted, the resulting state is
the untouched initial state (filesystem unchanged, every FoundCounters
and CreatedCounters entry 0), and the program falls through to a normal
exit. -/
theorem c7_invalid_single (c : Codec) (fs : FS) (p : Path) (h : p ∉ fs.files) :
    mainSingle c fs p = { state := initState fs, invalidLogged := true } := by
  simp [mainSingle, h]

/-- Witness for C7: the path `["ghost"]` is not a file of the empty
filesystem, and single-file mode on it logs the error and leaves the
initial state untouched. -/
theorem c7_invalid_single_witness :
    mainSingle allOkCodec ⟨[], []⟩ ["ghost"] =
      { state := initState ⟨[], []⟩, invalidLogged := true } :=
  c7_invalid_single allOkCodec ⟨[], []⟩ ["ghost"] (by decide)

/-- **C10.** Single-file mode never touches the per-format (or "other"
or "did-not-exist") FoundCounters: starting from the fresh per-run
state, after `convert_single` every such entry is still 0, and the
"error" entry is 1 exactly when the conversion raised and 0 on
success. -/
theorem c10_single_found (c : Codec) (p : Path) (fs : FS) :
    (convert_single c p (initState fs)).found.png = 0 ∧
    (convert_single c p (initState fs)).found.jpg = 0 ∧
    (convert_single c p (initState fs)).found.webp = 0 ∧
    (convert_single c p (initState fs)).found.other = 0 ∧
    (convert_single c p (initState fs)).found.didNotExist = 0 ∧
    (convert_single c p (initState fs)).found.error =
      (if (convertEx c p (initState fs)).2 then 1 else 0) := by
  unfold convert_single
  rw [convert_found]
  split <;> simp [initState, FoundCounts.inc, FoundCounts.zero]

/-- **C9.** Classification tests `file.split(".")[-1]` but creation tests
`image.endswith(f".{ext}")`: a file whose single dot-component is a
supported extension (the string "png", path `[e]`) is dispatched as a
job by the submission loop, and on a successful codec open/convert its
completed future bumps FoundCounters at that format, yet no sibling is
created, CreatedCounters are unchanged and the filesystem is
untouched. -/
theorem c9_split_vs_suffix (c : Codec) (e : String) (s : State) (js : List Path)
    (h1 : e ∈ EXTS) (h2 : [e] ∈ s.fs.files)
    (h3 : c.openOk [e] = true) (h4 : c.convertOk [e] = true) :
    (classifyStep (s, js) [e]).2 = js ++ [[e]] ∧
    (drainStep c s [e]).found.get e = s.found.get e + 1 ∧
    (drainStep c s [e]).created = s.created ∧
    (drainStep c s [e]).fs = s.fs := by
  have hlast : ([e] : Path).getLastD "" = e := rfl
  have hfind : findExt [e] = none := by
    simp [findExt, EXTS, endsWithDotExt, List.find?]
  have hconv : convert c [e] s = s := by
    unfold convert convertEx
    simp [h3, h4, hfind]
  have h1' := h1
  simp only [EXTS, List.mem_cons, List.not_mem_nil, or_false] at h1'
  refine ⟨?_, ?_, ?_, ?_⟩
  · simp [classifyStep, h2, hlast, h1]
  · rcases h1' with h | h | h <;> subst h <;>
      simp [drainStep, hconv, EXTS, FoundCounts.inc, FoundCounts.get]
  · simp [drainStep, hconv, hlast, h1]
  · simp [drainStep, hconv, hlast, h1]

/-- Witness for C9: the concrete file named exactly "png" in a
filesystem holding only it, with an all-succeeding codec. -/
theorem c9_split_vs_suffix_witness :
    (classifyStep (initState ⟨[["png"]], []⟩, []) ["png"]).2 = [] ++ [["png"]] ∧
    (drainStep allOkCodec (initState ⟨[["png"]], []⟩) ["png"]).found.get "png" =
      (initState ⟨[["png"]], []⟩).found.get "png" + 1 ∧
    (drainStep allOkCodec (initState ⟨[["png"]], []⟩) ["png"]).created =
      (initState ⟨[["png"]], []⟩).created ∧
    (drainStep allOkCodec (initState ⟨[["png"]], []⟩) ["png"]).fs =
      (initState ⟨[["png"]], []⟩).fs :=
  c9_split_vs_suffix allOkCodec "png" (initState ⟨[["png"]], []⟩) []
    (by decide) (by decide) rfl rfl

/-- **C1, counterexample.** The claim says a batch with one png file
whose codec open fails ends with FoundCounters error = 1 and png = 0.
On the code, the worker's `except` clause swallows the exception, so
`future.result()` returns normally and line 99 bumps the png counter
anyway: the run ends with error = 1 but png = 1, not 0. -/
theorem c1_counterexample :
    (convert_all openFailCodec [["a", "png"]]
        (initState ⟨[["a", "png"]], []⟩)).found.error = 1 ∧
    ¬ (convert_all openFailCodec [["a", "png"]]
        (initState ⟨[["a", "png"]], []⟩)).found.png = 0 := by
  decide

/-- **C1, amended.** For every delivered job (its last dot-component is
in the supported set, as classification guarantees), the drain loop
bumps FoundCounters at the job's source-format category exactly once
regardless of outcome, and additionally bumps "error" exactly once when
the conversion raised (the worker catches the failure and counts it
itself; the coordinator then still counts the format because the
exception never reaches `future.result()`). -/
theorem c1_amended (c : Codec) (s : State) (f : Path) (h : f.getLastD "" ∈ EXTS) :
    (drainStep c s f).found.get (f.getLastD "") = s.found.get (f.getLastD "") + 1 ∧
    (drainStep c s f).found.error =
      s.found.error + (if (convertEx c f s).2 then 1 else 0) := by
  have hfound := convert_found c f s
  simp only [EXTS, List.mem_cons, List.not_mem_nil, or_false] at h
  simp only [drainStep]
  by_cases hexc : (convertEx c f s).2 <;>
    rcases h with h | h | h <;> rw [h] <;>
      simp [hfound, hexc, EXTS, FoundCounts.inc, FoundCounts.get]

/-- Witness for C1 amended: a failing png job bumps both the png count
and the error count. -/
theorem c1_amended_witness :
    (drainStep openFailCodec (initState ⟨[["a", "png"]], []⟩) ["a", "png"]).found.get
        ((["a", "png"] : Path).getLastD "") =
      (initState ⟨[["a", "png"]], []⟩).found.get ((["a", "png"] : Path).getLastD "") + 1 ∧
    (drainStep openFailCodec (initState ⟨[["a", "png"]], []⟩) ["a", "png"]).found.error =
      (initState ⟨[["a", "png"]], []⟩).found.error +
        (if (convertEx openFailCodec ["a", "png"] (initState ⟨[["a", "png"]], []⟩)).2
         then 1 else 0) :=
  c1_amended openFailCodec (initState ⟨[["a", "png"]], []⟩) ["a", "png"] (by decide)

/-- **C3, counterexample.** The claim says every exclusion decrement of
`total_files` happens strictly before the monitor starts.  On the code,
`progress_thread.start()` (line 80) runs before the submission loop
(lines 84-92) performs its decrements: with one non-existing entry the
trace is `[setTotal 1, monitorStart, decTotal]`, so a decrement at
index 2 follows the monitor start at index 1. -/
theorem c3_counterexample :
    ¬ FinalizedBeforeMonitorStart (convertAllTrace [["ghost"]] (initState ⟨[], []⟩)) := by
  intro h
  have h21 := h 2 1 (by decide) (by decide)
  omega

/-- **C3, amended.** In every batch run the monitor thread is started at
coordinator step 1, before classification runs: every `total_files`
decrement occurs strictly after the monitor start, so the monitor can
observe a still-mutating, over-counted total (the opposite ordering of
the one claimed). -/
theorem c3_amended (entries : List Path) (s : State) :
    (convertAllTrace entries s).get? 1 = some Event.monitorStart ∧
    ∀ i, (convertAllTrace entries s).get? i = some Event.decTotal → 1 < i := by
  constructor
  · rfl
  · intro i hi
    match i with
    | 0 => simp [convertAllTrace] at hi
    | 1 => simp [convertAllTrace] at hi
    | (n + 2) => omega

/-- Witness for C3 amended: in the concrete one-missing-entry run the
monitor start is at index 1 and the decrement at index 2 is indeed
after it. -/
theorem c3_amended_witness :
    (convertAllTrace [["ghost"]] (initState ⟨[], []⟩)).get? 1 = some Event.monitorStart ∧
    1 < 2 :=
  ⟨(c3_amended [["ghost"]] (initState ⟨[], []⟩)).1,
   (c3_amended [["ghost"]] (initState ⟨[], []⟩)).2 2 (by decide)⟩

/-! ## Counting lemmas for the FoundCounters sum (C2) -/

theorem classifyStep_job (s : State) (js : List Path) (f : Path)
    (h1 : f ∈ s.fs.files) (h2 : f.getLastD "" ∈ EXTS) :
    classifyStep (s, js) f = (s, js ++ [f]) := by
  rw [List.getLastD_eq_getLast?] at h2
  simp [classifyStep, h1, h2]

theorem classifyStep_notfile (s : State) (js : List Path) (f : Path)
    (h1 : f ∉ s.fs.files) :
    classifyStep (s, js) f =
      ({ s with found := s.found.inc "did-not-exist", totalFiles := s.totalFiles - 1 }, js) := by
  simp [classifyStep, h1]

theorem classifyStep_badext (s : State) (js : List Path) (f : Path)
    (h1 : f ∈ s.fs.files) (h2 : f.getLastD "" ∉ EXTS) :
    classifyStep (s, js) f =
      ({ s with found := s.found.inc "other", totalFiles := s.totalFiles - 1 }, js) := by
  rw [List.getLastD_eq_getLast?] at h2
  simp [classifyStep, h1, h2]

/-- The submission loop never changes the filesystem or the created
counts, never touches the error count, and tallies each entry exactly
once: the FoundCounters sum plus the number of submitted jobs grows by
exactly the number of entries. -/
theorem classifyFold_spec :
    ∀ (entries : List Path) (s : State) (js : List Path),
      (entries.foldl classifyStep (s, js)).1.fs = s.fs ∧
      (entries.foldl classifyStep (s, js)).1.created = s.created ∧
      (entries.foldl classifyStep (s, js)).1.found.error = s.found.error ∧
      (entries.foldl classifyStep (s, js)).1.found.total +
          (entries.foldl classifyStep (s, js)).2.length =
        s.found.total + js.length + entries.length := by
  intro entries
  induction entries with
  | nil => intro s js; simp
  | cons f rest ih =>
    intro s js
    simp only [List.foldl_cons, List.length_cons]
    by_cases h1 : f ∈ s.fs.files
    · by_cases h2 : f.getLastD "" ∈ EXTS
      · rw [classifyStep_job s js f h1 h2]
        have h3 := ih s (js ++ [f])
        simp only [List.length_append, List.length_singleton] at h3 ⊢
        exact ⟨h3.1, h3.2.1, h3.2.2.1, by omega⟩
      · rw [classifyStep_badext s js f h1 h2]
        have h3 := ih { s with found := s.found.inc "other", totalFiles := s.totalFiles - 1 } js
        refine ⟨h3.1, h3.2.1, ?_, ?_⟩
        · rw [h3.2.2.1]; simp [FoundCounts.inc]
        · have h4 : (s.found.inc "other").total = s.found.total + 1 := by
            simp [FoundCounts.inc, FoundCounts.total]; omega
          have h5 := h3.2.2.2
          simp only [h4] at h5
          omega
    · rw [classifyStep_notfile s js f h1]
      have h3 := ih { s with found := s.found.inc "did-not-exist", totalFiles := s.totalFiles - 1 } js
      refine ⟨h3.1, h3.2.1, ?_, ?_⟩
      · rw [h3.2.2.1]; simp [FoundCounts.inc]
      · have h4 : (s.found.inc "did-not-exist").total = s.found.total + 1 := by
          simp [FoundCounts.inc, FoundCounts.total]; omega
        have h5 := h3.2.2.2
        simp only [h4] at h5
        omega

/-- One drain iteration: the FoundCounters sum grows by one plus the
error growth (the format tally always happens; the error tally happens
exactly when the job raised). -/
theorem drainStep_total (c : Codec) (s : State) (f : Path) :
    (drainStep c s f).found.total + s.found.error =
      s.found.total + (drainStep c s f).found.error + 1 := by
  have hfound := convert_found c f s
  simp only [drainStep]
  by_cases hk : f.getLastD "" ∈ EXTS
  · have hk' := hk
    simp only [EXTS, List.mem_cons, List.not_mem_nil, or_false] at hk'
    by_cases hexc : (convertEx c f s).2 <;> rcases hk' with h | h | h <;> rw [h] <;>
      simp [hfound, hexc, EXTS, FoundCounts.inc, FoundCounts.total] <;> omega
  · rw [if_neg hk]
    by_cases hexc : (convertEx c f s).2 <;>
      simp [hfound, hexc, FoundCounts.inc, FoundCounts.total] <;> omega

/-- Draining a job list: the FoundCounters sum grows by the number of
jobs plus the number of error tallies. -/
theorem drainFold_total (c : Codec) :
    ∀ (jobs : List Path) (s : State),
      (jobs.foldl (drainStep c) s).found.total + s.found.error =
        s.found.total + (jobs.foldl (drainStep c) s).found.error + jobs.length := by
  intro jobs
  induction jobs with
  | nil => intro s; simp
  | cons j rest ih =>
    intro s
    have h1 := drainStep_total c s j
    have h2 := ih (drainStep c s j)
    simp only [List.foldl_cons, List.length_cons]
    omega

/-- **C2, counterexample.** The claim says the FoundCounters sum equals
the number of discovered entries.  With one discovered `a.png` whose
codec open fails, the worker tallies "error" and the coordinator still
tallies "png" (the exception was swallowed), so the sum is 2 while only
1 entry was discovered. -/
theorem c2_counterexample :
    (convert_all openFailCodec [["a", "png"]]
        (initState ⟨[["a", "png"]], []⟩)).found.total ≠
      ([["a", "png"]] : List Path).length := by
  decide

/-- **C2, amended.** After every batch run the sum of all FoundCounters
categories equals the number of discovered entries plus the final
"error" count: every entry is tallied exactly once at classification or
delivery, and every job whose conversion raised is tallied a second
time at "error" because the coordinator still tallies its format. -/
theorem c2_amended (c : Codec) (entries : List Path) (fs : FS) :
    (convert_all c entries (initState fs)).found.total =
      entries.length + (convert_all c entries (initState fs)).found.error := by
  unfold convert_all classifyAll
  have hcl := classifyFold_spec entries { initState fs with totalFiles := entries.length } []
  have hdr := drainFold_total c
    (entries.foldl classifyStep ({ initState fs with totalFiles := entries.length }, [])).2
    (entries.foldl classifyStep ({ initState fs with totalFiles := entries.length }, [])).1
  have hz1 : ({ initState fs with totalFiles := entries.length } : State).found.total = 0 := rfl
  have hz2 : ({ initState fs with totalFiles := entries.length } : State).found.error = 0 := rfl
  have h3 := hcl.2.2.1
  have h4 := hcl.2.2.2
  simp only [List.length_nil] at h4
  simp only [] at h3 h4 hdr hz1 hz2 ⊢
  omega

/-! ## Idempotence (C4)

The key invariant: call the sibling list of a base path `b` *covered*
(relative to a skipped extension `ext`) when walking `EXTS` in order,
every non-skipped sibling either already exists or is the first missing
one and its save is doomed to fail.  On a covered list the inner loop
of `convert` creates nothing.  A completed run leaves every job and
every file it created covered, and coverage survives any later
additions of savable files. -/

def Covered (c : Codec) (X : FS) (b : Path) (ext : String) : List String → Prop
  | [] => True
  | other :: rest =>
    if ext = other then Covered c X b ext rest
    else (X.pathExists (b ++ [other]) ∧ Covered c X b ext rest) ∨
      (¬ X.pathExists (b ++ [other]) ∧ c.saveOk (b ++ [other]) = false)

/-- A path is *stable* in filesystem `X` when re-running `convert` on it
against `X` can create nothing: whenever its open and RGB conversion
succeed and an extension matches, the sibling list is covered. -/
def Stable (c : Codec) (X : FS) (f : Path) : Prop :=
  c.openOk f = true → c.convertOk f = true →
    ∀ ext, findExt f = some ext → Covered c X f.dropLast ext EXTS

theorem FS.pathExists_def (fs : FS) (p : Path) :
    fs.pathExists p ↔ p ∈ fs.files ∨ p ∈ fs.dirs := Iff.rfl

/-- The inner loop only adds files: the resulting file list is the old
one with a batch of new entries in front, each of them a savable
sibling of the base at a non-skipped extension of the remaining list. -/
theorem saveSiblings_files (c : Codec) (b : Path) (ext : String) :
    ∀ (l : List String) (s : State), ∃ new : List Path,
      ((saveSiblings c b ext l s).1).fs.files = new ++ s.fs.files ∧
      ∀ p ∈ new, c.saveOk p = true ∧ ∃ o, o ∈ l ∧ ext ≠ o ∧ p = b ++ [o] := by
  intro l
  induction l with
  | nil => intro s; exact ⟨[], rfl, by simp⟩
  | cons other rest ih =>
    intro s
    rw [saveSiblings]
    split
    · rename_i hcond
      split
      · rename_i hsave
        obtain ⟨new, hshape, hprops⟩ := ih _
        refine ⟨new ++ [b ++ [other]], ?_, ?_⟩
        · rw [hshape]; simp
        · intro p hp
          rcases List.mem_append.mp hp with hp | hp
          · obtain ⟨hs, o, ho, hne, hpe⟩ := hprops p hp
            exact ⟨hs, o, List.mem_cons_of_mem _ ho, hne, hpe⟩
          · simp only [List.mem_singleton] at hp
            subst hp
            exact ⟨hsave, other, List.mem_cons_self _ _, hcond.1, rfl⟩
      · exact ⟨[], rfl, by simp⟩
    · obtain ⟨new, hshape, hprops⟩ := ih s
      refine ⟨new, hshape, ?_⟩
      intro p hp
      obtain ⟨hs, o, ho, hne, hpe⟩ := hprops p hp
      exact ⟨hs, o, List.mem_cons_of_mem _ ho, hne, hpe⟩

/-- Anything that existed before the inner loop still exists after. -/
theorem saveSiblings_exists_mono (c : Codec) (b : Path) (ext : String)
    (l : List String) (s : State) (p : Path) (h : s.fs.pathExists p) :
    ((saveSiblings c b ext l s).1).fs.pathExists p := by
  obtain ⟨new, hshape, _⟩ := saveSiblings_files c b ext l s
  have hdirs := saveSiblings_dirs c b ext l s
  rw [FS.pathExists_def] at h ⊢
  rcases h with h | h
  · exact Or.inl (by rw [hshape]; exact List.mem_append_right _ h)
  · exact Or.inr (by rw [hdirs]; exact h)

/-- After the inner loop runs, the processed sibling list is covered in
the resulting filesystem. -/
theorem saveSiblings_covered (c : Codec) (b : Path) (ext : String) :
    ∀ (l : List String) (s : State),
      Covered c ((saveSiblings c b ext l s).1).fs b ext l := by
  intro l
  induction l with
  | nil => intro s; trivial
  | cons other rest ih =>
    intro s
    rw [saveSiblings]
    by_cases hc : ext ≠ other ∧ ¬ s.fs.pathExists (b ++ [other])
    · rw [if_pos hc]
      by_cases hs : c.saveOk (b ++ [other]) = true
      · rw [if_pos hs]
        rw [Covered, if_neg hc.1]
        left
        constructor
        · apply saveSiblings_exists_mono
          rw [FS.pathExists_def]
          exact Or.inl (List.mem_cons_self _ _)
        · exact ih _
      · rw [if_neg hs]
        rw [Covered, if_neg hc.1]
        right
        exact ⟨hc.2, by simpa using hs⟩
    · rw [if_neg hc]
      rw [Covered]
      by_cases he : ext = other
      · rw [if_pos he]; exact ih s
      · rw [if_neg he]
        left
        have hex : s.fs.pathExists (b ++ [other]) := by
          by_contra hnex
          exact hc ⟨he, hnex⟩
        exact ⟨saveSiblings_exists_mono c b ext rest s _ hex, ih s⟩

/-- Coverage survives growing the file set, as long as every newly
appeared file is savable (which is true of everything a run creates):
the doomed first-missing sibling can never have appeared. -/
theorem Covered_mono (c : Codec) (b : Path) (ext : String) (X Y : FS)
    (hf : ∀ p, p ∈ X.files → p ∈ Y.files)
    (hd : Y.dirs = X.dirs)
    (hnew : ∀ p, p ∈ Y.files → p ∉ X.files → c.saveOk p = true) :
    ∀ l, Covered c X b ext l → Covered c Y b ext l := by
  intro l
  induction l with
  | nil => intro h; trivial
  | cons other rest ih =>
    intro h
    rw [Covered] at h ⊢
    by_cases he : ext = other
    · rw [if_pos he] at h ⊢; exact ih h
    · rw [if_neg he] at h ⊢
      rcases h with ⟨hex, hrest⟩ | ⟨hnex, hsave⟩
      · left
        refine ⟨?_, ih hrest⟩
        rw [FS.pathExists_def] at hex ⊢
        rcases hex with h | h
        · exact Or.inl (hf _ h)
        · exact Or.inr (by rw [hd]; exact h)
      · by_cases hy : Y.pathExists (b ++ [other])
        · exfalso
          rw [FS.pathExists_def] at hy hnex
          rcases hy with h | h
          · have hsv := hnew _ h (fun hx => hnex (Or.inl hx))
            rw [hsv] at hsave
            exact absurd hsave (by simp)
          · exact hnex (Or.inr (by rw [← hd]; exact h))
        · right; exact ⟨hy, hsave⟩

/-- A covered list stays covered when the skipped extension changes,
provided both the old and the new skipped sibling already exist. -/
theorem Covered_transfer (c : Codec) (b : Path) (X : FS) (ext other : String)
    (hne : ext ≠ other)
    (hext : X.pathExists (b ++ [ext]))
    (hoth : X.pathExists (b ++ [other])) :
    ∀ l, Covered c X b ext l → Covered c X b other l := by
  intro l
  induction l with
  | nil => intro h; trivial
  | cons e rest ih =>
    intro h
    rw [Covered] at h ⊢
    by_cases h1 : ext = e
    · subst h1
      rw [if_pos rfl] at h
      rw [if_neg (fun hh => hne hh.symm)]
      left; exact ⟨hext, ih h⟩
    · rw [if_neg h1] at h
      by_cases h2 : other = e
      · subst h2
        rw [if_pos rfl]
        rcases h with ⟨_, hrest⟩ | ⟨hnex, _⟩
        · exact ih hrest
        · exact absurd hoth hnex
      · rw [if_neg h2]
        rcases h with ⟨hex, hrest⟩ | hstop
        · left; exact ⟨hex, ih hrest⟩
        · right; exact hstop

/-- On a covered sibling list the inner loop is a no-op on the state
(it may still raise, but it creates no file and bumps no counter). -/
theorem saveSiblings_nocreate (c : Codec) (b : Path) (ext : String) :
    ∀ (l : List String) (s : State),
      Covered c s.fs b ext l → (saveSiblings c b ext l s).1 = s := by
  intro l
  induction l with
  | nil => intro s _; rfl
  | cons other rest ih =>
    intro s h
    rw [Covered] at h
    rw [saveSiblings]
    by_cases he : ext = other
    · rw [if_pos he] at h
      rw [if_neg (fun hc => hc.1 he)]
      exact ih s h
    · rw [if_neg he] at h
      rcases h with ⟨hex, hrest⟩ | ⟨hnex, hsave⟩
      · rw [if_neg (fun hc => hc.2 hex)]
        exact ih s hrest
      · rw [if_pos ⟨he, hnex⟩, if_neg (by simp [hsave])]

/-- What a successful match of the extension scan means: the path has
at least two dot-components, its last component is the matched
extension, and that extension is supported. -/
theorem findExt_some_spec (f : Path) (ext : String) (h : findExt f = some ext) :
    2 ≤ f.length ∧ f.getLastD "" = ext ∧ ext ∈ EXTS := by
  unfold findExt at h
  have h1 := List.find?_some h
  have h2 := List.mem_of_find?_eq_some h
  unfold endsWithDotExt at h1
  simp only [Bool.and_eq_true, decide_eq_true_eq, beq_iff_eq] at h1
  exact ⟨h1.1, h1.2, h2⟩

/-- A path matching `."ext"` is its dot-free stem plus that extension. -/
theorem path_concat_getLast (f : Path) (ext : String) (h1 : 2 ≤ f.length)
    (h2 : f.getLastD "" = ext) : f.dropLast ++ [ext] = f := by
  have hne : f ≠ [] := by
    intro h; subst h; simp at h1
  have h3 := List.dropLast_append_getLast hne
  rw [List.getLastD_eq_getLast?, List.getLast?_eq_getLast_of_ne_nil hne] at h2
  simp only [Option.getD_some] at h2
  rw [← h2]
  exact h3

/-- The extension scan on a supported-extension sibling path finds
exactly that extension. -/
theorem findExt_concat (b : Path) (o : String) (hb : b ≠ []) (ho : o ∈ EXTS) :
    findExt (b ++ [o]) = some o := by
  have hlen : 2 ≤ (b ++ [o]).length := by
    cases b with
    | nil => exact absurd rfl hb
    | cons x xs => simp [List.length_append]
  have hlast : (b ++ [o]).getLastD "" = o := by simp
  have hew : ∀ e, endsWithDotExt (b ++ [o]) e = (o == e) := by
    intro e
    unfold endsWithDotExt
    rw [hlast, decide_eq_true hlen, Bool.true_and]
  have ho' : o = "png" ∨ o = "jpg" ∨ o = "webp" := by simpa [EXTS] using ho
  unfold findExt EXTS
  rcases ho' with h | h | h <;> subst h <;> simp [List.find?, hew]

/-- Everything `convert` does to the filesystem: it only prepends new
savable files (and leaves the directories alone). -/
theorem convert_files (c : Codec) (f : Path) (s : State) : ∃ new : List Path,
    (convert c f s).fs.files = new ++ s.fs.files ∧
    (∀ p ∈ new, c.saveOk p = true) ∧
    (convert c f s).fs.dirs = s.fs.dirs := by
  rw [convert_fs]
  unfold convertEx
  by_cases h1 : c.openOk f = true
  · rw [if_pos h1]
    by_cases h2 : c.convertOk f = true
    · rw [if_pos h2]
      cases hfe : findExt f with
      | none => exact ⟨[], by simp, by simp, rfl⟩
      | some ext =>
        simp only [hfe]
        obtain ⟨new, hshape, hprops⟩ := saveSiblings_files c f.dropLast ext EXTS s
        exact ⟨new, hshape, fun p hp => (hprops p hp).1,
          saveSiblings_dirs c f.dropLast ext EXTS s⟩
    · rw [if_neg h2]; exact ⟨[], rfl, by simp, rfl⟩
  · rw [if_neg h1]; exact ⟨[], rfl, by simp, rfl⟩

/-- After `convert` runs on a path, that path is stable in the
resulting filesystem. -/
theorem convert_stable (c : Codec) (f : Path) (s : State) :
    Stable c (convert c f s).fs f := by
  intro ho hc ext hfe
  rw [convert_fs]
  unfold convertEx
  rw [if_pos ho, if_pos hc]
  simp only [hfe]
  exact saveSiblings_covered c f.dropLast ext EXTS s

/-- Running `convert` on a stable path changes neither the filesystem
nor the created counts (it can only add an error tally). -/
theorem convert_nocreate (c : Codec) (f : Path) (s : State) (h : Stable c s.fs f) :
    (convert c f s).fs = s.fs ∧ (convert c f s).created = s.created := by
  rw [convert_fs, convert_created]
  unfold convertEx
  by_cases h1 : c.openOk f = true
  · rw [if_pos h1]
    by_cases h2 : c.convertOk f = true
    · rw [if_pos h2]
      cases hfe : findExt f with
      | none => exact ⟨rfl, rfl⟩
      | some ext =>
        simp only [hfe]
        rw [saveSiblings_nocreate c f.dropLast ext EXTS s (h h1 h2 ext hfe)]
        exact ⟨rfl, rfl⟩
    · rw [if_neg h2]; exact ⟨rfl, rfl⟩
  · rw [if_neg h1]; exact ⟨rfl, rfl⟩

/-- Stability survives growing the file set by savable files. -/
theorem Stable_mono (c : Codec) (f : Path) (X Y : FS)
    (hf : ∀ p, p ∈ X.files → p ∈ Y.files)
    (hd : Y.dirs = X.dirs)
    (hnew : ∀ p, p ∈ Y.files → p ∉ X.files → c.saveOk p = true)
    (h : Stable c X f) : Stable c Y f := by
  intro ho hc ext hfe
  exact Covered_mono c f.dropLast ext X Y hf hd hnew EXTS (h ho hc ext hfe)

/-- Every file freshly created by `convert` on a job that is itself a
file is stable in the resulting filesystem: its own sibling list is the
job's sibling list, which the loop just covered, with the skipped
sibling (the job itself) and the file itself both present. -/
theorem convert_new_stable (c : Codec) (f : Path) (s : State)
    (hjf : f ∈ s.fs.files) :
    ∀ p, p ∈ (convert c f s).fs.files → p ∉ s.fs.files →
      Stable c (convert c f s).fs p := by
  intro p hp hnp
  rw [convert_fs] at hp ⊢
  unfold convertEx at hp ⊢
  by_cases h1 : c.openOk f = true
  case neg => rw [if_neg h1] at hp ⊢; exact absurd hp hnp
  rw [if_pos h1] at hp ⊢
  by_cases h2 : c.convertOk f = true
  case neg => rw [if_neg h2] at hp ⊢; exact absurd hp hnp
  rw [if_pos h2] at hp ⊢
  cases hfe : findExt f with
  | none => simp only [hfe] at hp ⊢; exact absurd hp hnp
  | some ext =>
    simp only [hfe] at hp ⊢
    obtain ⟨hlen, hlast, hmemE⟩ := findExt_some_spec f ext hfe
    have hfeq : f.dropLast ++ [ext] = f := path_concat_getLast f ext hlen hlast
    obtain ⟨new, hshape, hprops⟩ := saveSiblings_files c f.dropLast ext EXTS s
    have hpnew : p ∈ new := by
      rw [hshape] at hp
      rcases List.mem_append.mp hp with h | h
      · exact h
      · exact absurd h hnp
    obtain ⟨hsave, o, hoE, hne, hpe⟩ := hprops p hpnew
    subst hpe
    have hbne : f.dropLast ≠ [] := by
      intro hnil
      rw [hnil] at hfeq
      have : f.length = 1 := by rw [← hfeq]; rfl
      omega
    intro ho hc ext' hfe'
    have hfo : findExt (f.dropLast ++ [o]) = some o := findExt_concat _ o hbne hoE
    rw [hfo] at hfe'
    have hext' : o = ext' := by injection hfe'
    subst hext'
    rw [List.dropLast_concat]
    have hC := saveSiblings_covered c f.dropLast ext EXTS s
    apply Covered_transfer c f.dropLast _ ext o hne _ _ EXTS hC
    · rw [FS.pathExists_def, hfeq]
      exact Or.inl (by rw [hshape]; exact List.mem_append_right _ hjf)
    · rw [FS.pathExists_def]
      exact Or.inl (by rw [hshape]; exact List.mem_append_left _ hpnew)

/-- The coordinator's part of a drain iteration leaves the filesystem
and the created counts exactly as `convert` left them. -/
theorem drainStep_fs (c : Codec) (s : State) (f : Path) :
    (drainStep c s f).fs = (convert c f s).fs ∧
    (drainStep c s f).created = (convert c f s).created := by
  simp only [drainStep]
  split <;> exact ⟨rfl, rfl⟩

/-- Master invariant of the drain loop: files only get added, added
files are savable, and at the end every processed job and every file
the loop created is stable in the final filesystem. -/
theorem drainFold_master (c : Codec) :
    ∀ (jobs : List Path) (s : State), (∀ j ∈ jobs, j ∈ s.fs.files) →
      (∀ p, p ∈ s.fs.files → p ∈ (jobs.foldl (drainStep c) s).fs.files) ∧
      (jobs.foldl (drainStep c) s).fs.dirs = s.fs.dirs ∧
      (∀ p, p ∈ (jobs.foldl (drainStep c) s).fs.files → p ∉ s.fs.files →
        c.saveOk p = true ∧ Stable c (jobs.foldl (drainStep c) s).fs p) ∧
      (∀ j ∈ jobs, Stable c (jobs.foldl (drainStep c) s).fs j) := by
  intro jobs
  induction jobs with
  | nil =>
    intro s _
    exact ⟨fun p hp => hp, rfl, fun p hp hnp => absurd hp hnp, by simp⟩
  | cons j rest ih =>
    intro s hjobs
    simp only [List.foldl_cons]
    have hjs : j ∈ s.fs.files := hjobs j (List.mem_cons_self _ _)
    have hfs1 : (drainStep c s j).fs = (convert c j s).fs := (drainStep_fs c s j).1
    obtain ⟨new1, hshape1, hsave1, hdirs1⟩ := convert_files c j s
    have hsub1 : ∀ p, p ∈ s.fs.files → p ∈ (drainStep c s j).fs.files := by
      intro p hp
      rw [hfs1, hshape1]
      exact List.mem_append_right _ hp
    have hjobs' : ∀ j' ∈ rest, j' ∈ (drainStep c s j).fs.files := by
      intro j' hj'
      exact hsub1 j' (hjobs j' (List.mem_cons_of_mem _ hj'))
    obtain ⟨ihf, ihd, ihnew, ihjobs⟩ := ih (drainStep c s j) hjobs'
    have hd1 : (drainStep c s j).fs.dirs = s.fs.dirs := by rw [hfs1, hdirs1]
    have hlift : ∀ q, Stable c (drainStep c s j).fs q →
        Stable c (rest.foldl (drainStep c) (drainStep c s j)).fs q := by
      intro q hq
      exact Stable_mono c q _ _ ihf ihd (fun p hp hnp => (ihnew p hp hnp).1) hq
    refine ⟨?_, ?_, ?_, ?_⟩
    · intro p hp
      exact ihf p (hsub1 p hp)
    · rw [ihd, hd1]
    · intro p hp hnp
      by_cases hp1 : p ∈ (drainStep c s j).fs.files
      · have hpnew : p ∈ new1 := by
          rw [hfs1, hshape1] at hp1
          rcases List.mem_append.mp hp1 with h | h
          · exact h
          · exact absurd h hnp
        refine ⟨hsave1 p hpnew, ?_⟩
        apply hlift
        have := convert_new_stable c j s hjs p (by rw [← hfs1]; exact hp1) hnp
        rw [← hfs1] at this
        exact this
      · exact ihnew p hp hp1
    · intro j' hj'
      rcases List.mem_cons.mp hj' with h | h
      · subst h
        apply hlift
        have := convert_stable c j' s
        rw [← hfs1] at this
        exact this
      · exact ihjobs j' h

/-- Draining a list of jobs that are all stable in the current
filesystem changes neither the filesystem nor the created counts. -/
theorem drainFold_nocreate (c : Codec) :
    ∀ (jobs : List Path) (s : State), (∀ j ∈ jobs, Stable c s.fs j) →
      (jobs.foldl (drainStep c) s).fs = s.fs ∧
      (jobs.foldl (drainStep c) s).created = s.created := by
  intro jobs
  induction jobs with
  | nil => intro s _; exact ⟨rfl, rfl⟩
  | cons j rest ih =>
    intro s h
    have hj := h j (List.mem_cons_self _ _)
    have hnc := convert_nocreate c j s hj
    have hfs : (drainStep c s j).fs = s.fs := by rw [(drainStep_fs c s j).1, hnc.1]
    have hcr : (drainStep c s j).created = s.created := by
      rw [(drainStep_fs c s j).2, hnc.2]
    have ihr := ih (drainStep c s j) (by
      intro j' hj'
      rw [hfs]
      exact h j' (List.mem_cons_of_mem _ hj'))
    simp only [List.foldl_cons]
    exact ⟨by rw [ihr.1, hfs], by rw [ihr.2, hcr]⟩

/-- What the submission loop submits: exactly the discovered entries
that are existing files with a supported last dot-component (plus
whatever was already in the accumulator), in order. -/
theorem classifyFold_jobs :
    ∀ (entries : List Path) (s : State) (js : List Path),
      (∀ j, j ∈ (entries.foldl classifyStep (s, js)).2 →
        j ∈ js ∨ (j ∈ entries ∧ j ∈ s.fs.files ∧ j.getLastD "" ∈ EXTS)) ∧
      (∀ j, j ∈ entries → j ∈ s.fs.files → j.getLastD "" ∈ EXTS →
        j ∈ (entries.foldl classifyStep (s, js)).2) ∧
      (∀ j, j ∈ js → j ∈ (entries.foldl classifyStep (s, js)).2) := by
  intro entries
  induction entries with
  | nil =>
    intro s js
    exact ⟨fun j hj => Or.inl hj, by simp, fun j hj => hj⟩
  | cons f rest ih =>
    intro s js
    simp only [List.foldl_cons]
    by_cases h1 : f ∈ s.fs.files
    · by_cases h2 : f.getLastD "" ∈ EXTS
      · rw [classifyStep_job s js f h1 h2]
        obtain ⟨ihs, ihc, ihk⟩ := ih s (js ++ [f])
        refine ⟨?_, ?_, ?_⟩
        · intro j hj
          rcases ihs j hj with hjs | ⟨he, hf, hext⟩
          · rcases List.mem_append.mp hjs with h | h
            · exact Or.inl h
            · simp only [List.mem_singleton] at h
              subst h
              exact Or.inr ⟨List.mem_cons_self _ _, h1, h2⟩
          · exact Or.inr ⟨List.mem_cons_of_mem _ he, hf, hext⟩
        · intro j hj hf hext
          rcases List.mem_cons.mp hj with h | h
          · subst h
            exact ihk j (List.mem_append_right _ (List.mem_singleton.mpr rfl))
          · exact ihc j h hf hext
        · intro j hj
          exact ihk j (List.mem_append_left _ hj)
      · rw [classifyStep_badext s js f h1 h2]
        obtain ⟨ihs, ihc, ihk⟩ :=
          ih { s with found := s.found.inc "other", totalFiles := s.totalFiles - 1 } js
        refine ⟨?_, ?_, ?_⟩
        · intro j hj
          rcases ihs j hj with hjs | ⟨he, hf, hext⟩
          · exact Or.inl hjs
          · exact Or.inr ⟨List.mem_cons_of_mem _ he, hf, hext⟩
        · intro j hj hf hext
          rcases List.mem_cons.mp hj with h | h
          · subst h; exact absurd hext h2
          · exact ihc j h hf hext
        · exact ihk
    · rw [classifyStep_notfile s js f h1]
      obtain ⟨ihs, ihc, ihk⟩ :=
        ih { s with found := s.found.inc "did-not-exist", totalFiles := s.totalFiles - 1 } js
      refine ⟨?_, ?_, ?_⟩
      · intro j hj
        rcases ihs j hj with hjs | ⟨he, hf, hext⟩
        · exact Or.inl hjs
        · exact Or.inr ⟨List.mem_cons_of_mem _ he, hf, hext⟩
      · intro j hj hf hext
        rcases List.mem_cons.mp hj with h | h
        · subst h; exact absurd hf h1
        · exact ihc j h hf hext
      · exact ihk

/-- **C4.** Idempotence: run a batch over any entry list, then run a
second batch over the resulting directory (its entries are the original
ones plus files the first run created — any sub-list of those is
allowed, covering every discovery order).  The second run creates no
file (the filesystem is unchanged) and its CreatedCounters stay all
zero: every candidate sibling either already exists, so the
destination-exists check skips it, or its save already failed in run
one and fails again before anything is written. -/
theorem c4_idempotent (c : Codec) (entries entries2 : List Path) (fs : FS)
    (h : ∀ e, e ∈ entries2 → e ∈ entries ∨
      (e ∈ (convert_all c entries (initState fs)).fs.files ∧ e ∉ fs.files)) :
    (convert_all c entries2
        (initState (convert_all c entries (initState fs)).fs)).fs.files =
      (convert_all c entries (initState fs)).fs.files ∧
    (convert_all c entries2
        (initState (convert_all c entries (initState fs)).fs)).created =
      CreatedCounts.zero := by
  unfold convert_all classifyAll at h ⊢
  simp only [initState] at h ⊢
  have hA := classifyFold_spec entries { initState fs with totalFiles := entries.length } []
  have hAjobs := classifyFold_jobs entries { initState fs with totalFiles := entries.length } []
  simp only [initState] at hA hAjobs
  have hjobs1 : ∀ j ∈ (entries.foldl classifyStep
      ({ fs := fs, found := .zero, created := .zero, totalFiles := entries.length,
         processedFiles := 0 }, [])).2,
      j ∈ (entries.foldl classifyStep
        ({ fs := fs, found := .zero, created := .zero, totalFiles := entries.length,
           processedFiles := 0 }, [])).1.fs.files := by
    intro j hj
    rcases hAjobs.1 j hj with h0 | ⟨_, hf, _⟩
    · simp at h0
    · rw [hA.1]; exact hf
  have hM := drainFold_master c _ _ hjobs1
  set s0A : State :=
    { fs := fs, found := FoundCounts.zero, created := CreatedCounts.zero,
      totalFiles := entries.length, processedFiles := 0 } with hs0A
  set rA := List.foldl classifyStep (s0A, []) entries with hrA
  set R1 := List.foldl (drainStep c) rA.1 rA.2 with hR1
  set s0B : State :=
    { fs := R1.fs, found := FoundCounts.zero, created := CreatedCounts.zero,
      totalFiles := entries2.length, processedFiles := 0 } with hs0B
  set rB := List.foldl classifyStep (s0B, []) entries2 with hrB
  have hB := classifyFold_spec entries2 s0B []
  have hBjobs := classifyFold_jobs entries2 s0B []
  have hs0Bfs : s0B.fs = R1.fs := by rw [hs0B]
  have hstable : ∀ j ∈ rB.2, Stable c R1.fs j := by
    intro j hj
    rcases hBjobs.1 j hj with h0 | ⟨hjent2, hjfile, hjext⟩
    · simp at h0
    · rw [hs0Bfs] at hjfile
      rcases h j hjent2 with hjE | ⟨hjs1, hjnfs⟩
      · by_cases hjfs : j ∈ fs.files
        · exact hM.2.2.2 j (hAjobs.2.1 j hjE hjfs hjext)
        · exact (hM.2.2.1 j hjfile (by rw [hA.1]; exact hjfs)).2
      · exact (hM.2.2.1 j hjs1 (by rw [hA.1]; exact hjnfs)).2
  have hrBfs : rB.1.fs = R1.fs := by
    rw [hrB, hB.1, hs0Bfs]
  have hrBcr : rB.1.created = CreatedCounts.zero := by
    rw [hrB, hB.2.1, hs0B]
  have hnc := drainFold_nocreate c rB.2 rB.1 (by
    intro j hj
    rw [hrBfs]
    exact hstable j hj)
  constructor
  · rw [hnc.1, hrBfs]
  · rw [hnc.2, hrBcr]

/-- Witness for C4: the concrete `a.png` directory; the first run
creates `a.jpg` and `a.webp`, and a second run over the resulting
three-entry directory creates nothing and leaves CreatedCounters at
zero. -/
theorem c4_idempotent_witness :
    (∀ e, e ∈ ([["a", "webp"], ["a", "jpg"], ["a", "png"]] : List Path) →
      e ∈ ([["a", "png"]] : List Path) ∨
        (e ∈ (convert_all allOkCodec [["a", "png"]]
            (initState ⟨[["a", "png"]], []⟩)).fs.files ∧
          e ∉ (⟨[["a", "png"]], []⟩ : FS).files)) ∧
    (convert_all allOkCodec [["a", "webp"], ["a", "jpg"], ["a", "png"]]
        (initState (convert_all allOkCodec [["a", "png"]]
          (initState ⟨[["a", "png"]], []⟩)).fs)).fs.files =
      (convert_all allOkCodec [["a", "png"]] (initState ⟨[["a", "png"]], []⟩)).fs.files ∧
    (convert_all allOkCodec [["a", "webp"], ["a", "jpg"], ["a", "png"]]
        (initState (convert_all allOkCodec [["a", "png"]]
          (initState ⟨[["a", "png"]], []⟩)).fs)).created = CreatedCounts.zero :=
  ⟨by decide,
   c4_idempotent allOkCodec [["a", "png"]] [["a", "webp"], ["a", "jpg"], ["a", "png"]]
     ⟨[["a", "png"]], []⟩ (by decide)⟩

end ImgConv
